import Mathlib

/-!
Verification of the manufacturing order-tracking repository: a shallow
embedding of its analytical SQL queries (`queries.sql`, Q5/Q8/Q13/Q15/Q16)
and of its HTTP handlers (`backend/server.js`), with theorems settling the
specification claims about them.

SQL tables become lists of records, joins become `flatMap`/`filter`
pipelines, `GROUP BY` becomes key deduplication plus per-key filtering,
`ORDER BY` becomes `List.insertionSort` on a lexicographic key, and SQL
`NULL` becomes `Option`.  Timestamps are epoch seconds (`ℤ`); PostgreSQL
`ROUND(x, d)` on `numeric` (round half away from zero) is embedded as
integer arithmetic on values scaled by `10 ^ d`.
-/

namespace PE

/-! ### Generic SQL building blocks -/

/-- A SQL `LEFT JOIN` against an already-filtered match list: when no row of
the right table matches, a single all-`NULL` row is produced instead. -/
def leftJoin {β : Type} (ms : List β) : List (Option β) :=
  match ms with
  | [] => [none]
  | ms => ms.map some

/-- `SUM(f) FILTER (WHERE p)` over the rows of one group: `NULL` (here
`none`) when no row satisfies the filter, otherwise the sum. -/
def sqlSumFilter {α : Type} (rows : List α) (p : α → Bool) (f : α → ℤ) : Option ℤ :=
  match rows.filter p with
  | [] => none
  | xs => some ((xs.map f).sum)

/-- PostgreSQL `ROUND(num / den, d)` scaled by `10 ^ d` so that the result is
an integer: rounding is half away from zero, which for a non-negative
argument is `⌊num / den + 1 / 2⌋`.  The scaling by `10 ^ d` is already folded
into `num` by each caller.  Requires `0 < den`. -/
def pgRoundDiv (num den : ℤ) : ℤ :=
  if 0 ≤ num then (2 * num + den) / (2 * den)
  else -((2 * (-num) + den) / (2 * den))

/-- The comparison relation `ORDER BY` uses: compare rows through a key into
a linear order (lexicographic keys are built with `Prod.Lex`). -/
def keyLe {α κ : Type} [LinearOrder κ] (f : α → κ) (a b : α) : Prop :=
  f a ≤ f b

instance {α κ : Type} [LinearOrder κ] (f : α → κ) : DecidableRel (keyLe f) :=
  fun a b => inferInstanceAs (Decidable (f a ≤ f b))

instance {α κ : Type} [LinearOrder κ] (f : α → κ) : IsTotal α (keyLe f) :=
  ⟨fun a b => le_total (f a) (f b)⟩

instance {α κ : Type} [LinearOrder κ] (f : α → κ) : IsTrans α (keyLe f) :=
  ⟨fun _ _ _ h1 h2 => le_trans h1 h2⟩

/-- SQL text ordering, modelled on the character list of a `String`. -/
def strKey (s : String) : List Char := s.data

/-! ### Data model (relational schema)

Row types carry the columns the embedded queries read.  Statuses of orders
and of route steps are the enumerated domains stated by the data model
(`orders.status ∈ {NEW, PLANNED, IN_PROGRESS, DONE, CANCELED}`,
`route_steps.status ∈ {PLANNED, IN_PROGRESS, DONE}`); the status column of
`operation_logs` is left as free text since no constraint on it is visible. -/

inductive StepStatus
  | planned
  | inProgress
  | done
deriving DecidableEq

inductive OrderStatus
  | new
  | planned
  | inProgress
  | done
  | canceled
deriving DecidableEq

structure Order where
  id : ℕ
  status : OrderStatus
deriving DecidableEq

structure OrderItem where
  id : ℕ
  order_id : ℕ
  product_id : ℕ
deriving DecidableEq

structure Product where
  id : ℕ
  name : String
deriving DecidableEq

structure Operation where
  id : ℕ
  name : String
  default_minutes : Option ℤ
deriving DecidableEq

structure Workshop where
  id : ℕ
  name : String
deriving DecidableEq

structure Equipment where
  id : ℕ
  name : String
  workshop_id : Option ℕ
deriving DecidableEq

structure RouteStep where
  id : ℕ
  order_item_id : ℕ
  step_no : ℤ
  operation_id : ℕ
  workshop_id : Option ℕ
  status : StepStatus
  planned_minutes : Option ℤ
  planned_finish : Option ℤ
deriving DecidableEq

structure OperationLog where
  id : ℕ
  route_step_id : ℕ
  equipment_id : Option ℕ
  status : String
deriving DecidableEq

structure Db where
  orders : List Order
  order_items : List OrderItem
  products : List Product
  route_steps : List RouteStep
  operations : List Operation
  workshops : List Workshop
  equipment : List Equipment
  operation_logs : List OperationLog
deriving DecidableEq

/-- `COALESCE(rs.planned_minutes, op.default_minutes, 0)`. -/
def coalesceMinutes (rs : RouteStep) (op : Operation) : ℤ :=
  rs.planned_minutes.getD (op.default_minutes.getD 0)

/-! ### Q5 — locate current step

```
WITH steps AS (SELECT o.id, p.name, rs.id, rs.step_no, op.name, w.name, rs.status
  FROM orders o JOIN order_items oi ... JOIN products p ... JOIN route_steps rs ...
  JOIN operations op ... LEFT JOIN workshops w ...)
SELECT * FROM steps WHERE status IN ('IN_PROGRESS', 'PLANNED')
ORDER BY order_id, product, CASE status WHEN 'IN_PROGRESS' THEN 0 ELSE 1 END, step_no;
```
The `item_id` field records which `order_items` row a result row was joined
from (join provenance); the SQL `SELECT` does not project it and no filter
or sort key below reads it. -/

structure Q5Row where
  order_id : ℕ
  product : String
  route_step_id : ℕ
  step_no : ℤ
  operation : String
  workshop : Option String
  status : StepStatus
  item_id : ℕ
deriving DecidableEq

def q5Steps (db : Db) : List Q5Row :=
  db.orders.flatMap fun o =>
    (db.order_items.filter fun oi => oi.order_id = o.id).flatMap fun oi =>
      (db.products.filter fun p => p.id = oi.product_id).flatMap fun p =>
        (db.route_steps.filter fun rs => rs.order_item_id = oi.id).flatMap fun rs =>
          (db.operations.filter fun op => op.id = rs.operation_id).flatMap fun op =>
            (leftJoin (db.workshops.filter fun w => rs.workshop_id = some w.id)).map fun w? =>
              ⟨o.id, p.name, rs.id, rs.step_no, op.name, w?.map Workshop.name, rs.status, oi.id⟩

/-- `CASE status WHEN 'IN_PROGRESS' THEN 0 ELSE 1 END`. -/
def statusRank (s : StepStatus) : ℕ :=
  if s = StepStatus.inProgress then 0 else 1

def q5Key (r : Q5Row) : ℕ ×ₗ (List Char ×ₗ (ℕ ×ₗ ℤ)) :=
  toLex (r.order_id, toLex (strKey r.product, toLex (statusRank r.status, r.step_no)))

def q5 (db : Db) : List Q5Row :=
  List.insertionSort (keyLe q5Key)
    ((q5Steps db).filter fun r =>
      r.status = StepStatus.inProgress ∨ r.status = StepStatus.planned)

/-! ### Q8 — equipment utilization

```
SELECT e.id, e.name, w.name,
  COUNT(*) FILTER (WHERE ol.status = 'IN_PROGRESS') AS active_ops,
  COUNT(*) AS total_logs
FROM equipment e LEFT JOIN workshops w ON w.id = e.workshop_id
LEFT JOIN operation_logs ol ON ol.equipment_id = e.id
GROUP BY e.id, e.name, w.name
ORDER BY active_ops DESC, e.name;
```
-/

structure Q8Row where
  id : ℕ
  equipment : String
  workshop : Option String
  active_ops : ℕ
  total_logs : ℕ
deriving DecidableEq

def q8Rows (db : Db) : List (ℕ × String × Option String × Option OperationLog) :=
  db.equipment.flatMap fun e =>
    (leftJoin (db.workshops.filter fun w => e.workshop_id = some w.id)).flatMap fun w? =>
      (leftJoin (db.operation_logs.filter fun ol => ol.equipment_id = some e.id)).map fun ol? =>
        (e.id, e.name, w?.map Workshop.name, ol?)

def q8GroupKey (r : ℕ × String × Option String × Option OperationLog) :
    ℕ × String × Option String :=
  (r.1, r.2.1, r.2.2.1)

/-- `ORDER BY active_ops DESC, e.name`: descending numeric key encoded by
negation, then the name text. -/
def q8Key (r : Q8Row) : ℤ ×ₗ List Char :=
  toLex (-(r.active_ops : ℤ), strKey r.equipment)

def q8 (db : Db) : List Q8Row :=
  List.insertionSort (keyLe q8Key)
    ((((q8Rows db).map q8GroupKey).dedup).map fun k =>
      let g := (q8Rows db).filter fun r => q8GroupKey r = k
      ⟨k.1, k.2.1, k.2.2,
        (g.filter fun r => r.2.2.2.any fun ol => ol.status = "IN_PROGRESS").length,
        g.length⟩)

/-! ### Q13 — overdue route steps

```
SELECT o.id, p.name, rs.step_no, op.name, w.name, rs.status, rs.planned_finish,
  NOW() AS checked_at,
  ROUND(EXTRACT(EPOCH FROM (NOW() - rs.planned_finish)) / 3600.0, 1) AS hours_overdue
FROM route_steps rs JOIN order_items oi ... JOIN orders o ... JOIN products p ...
JOIN operations op ... LEFT JOIN workshops w ...
WHERE rs.planned_finish IS NOT NULL AND rs.planned_finish < NOW() AND rs.status <> 'DONE'
ORDER BY hours_overdue DESC;
```
`NOW()` is the injected evaluation instant `now` (epoch seconds);
`hours_overdue` is held scaled by 10 (tenths of an hour), so
`ROUND(sec / 3600.0, 1)` becomes `pgRoundDiv (sec * 10) 3600`.  The `WHERE`
clause only reads `rs` columns, so it is applied before the joins. -/

structure Q13Row where
  order_id : ℕ
  product : String
  step_no : ℤ
  operation : String
  workshop : Option String
  step_status : StepStatus
  planned_finish : ℤ
  checked_at : ℤ
  hours_overdue_tenths : ℤ
deriving DecidableEq

def q13Rows (db : Db) (now : ℤ) : List Q13Row :=
  db.route_steps.flatMap fun rs =>
    match rs.planned_finish with
    | none => []
    | some pf =>
      if pf < now ∧ rs.status ≠ StepStatus.done then
        (db.order_items.filter fun oi => oi.id = rs.order_item_id).flatMap fun oi =>
          (db.orders.filter fun o => o.id = oi.order_id).flatMap fun o =>
            (db.products.filter fun p => p.id = oi.product_id).flatMap fun p =>
              (db.operations.filter fun op => op.id = rs.operation_id).flatMap fun op =>
                (leftJoin (db.workshops.filter fun w => rs.workshop_id = some w.id)).map fun w? =>
                  ⟨o.id, p.name, rs.step_no, op.name, w?.map Workshop.name, rs.status,
                    pf, now, pgRoundDiv ((now - pf) * 10) 3600⟩
      else []

def q13 (db : Db) (now : ℤ) : List Q13Row :=
  List.insertionSort (keyLe fun r => -r.hours_overdue_tenths) (q13Rows db now)

/-! ### Q15 — work-in-progress valuation per order

```
WITH remaining AS (
  SELECT o.id AS order_id,
    SUM(COALESCE(rs.planned_minutes, op.default_minutes, 0))
      FILTER (WHERE rs.status <> 'DONE') AS remaining_minutes
  FROM orders o JOIN order_items oi ... JOIN route_steps rs ... JOIN operations op ...
  WHERE o.status IN ('PLANNED', 'IN_PROGRESS')
  GROUP BY o.id)
SELECT r.order_id, r.remaining_minutes,
  ROUND(r.remaining_minutes / 60.0, 2) AS remaining_hours,
  1500 AS rate_rub_per_hour,
  ROUND((r.remaining_minutes / 60.0) * 1500, 0) AS nzp_cost_rub
FROM remaining r ORDER BY nzp_cost_rub DESC;
```
`remaining_hours` is held scaled by 100 (hundredths of an hour). -/

structure Q15Row where
  order_id : ℕ
  remaining_minutes : Option ℤ
  remaining_hours_hundredths : Option ℤ
  rate_rub_per_hour : ℤ
  nzp_cost_rub : Option ℤ
deriving DecidableEq

def q15Joined (db : Db) : List (ℕ × StepStatus × ℤ) :=
  (db.orders.filter fun o =>
      o.status = OrderStatus.planned ∨ o.status = OrderStatus.inProgress).flatMap fun o =>
    (db.order_items.filter fun oi => oi.order_id = o.id).flatMap fun oi =>
      (db.route_steps.filter fun rs => rs.order_item_id = oi.id).flatMap fun rs =>
        (db.operations.filter fun op => op.id = rs.operation_id).map fun op =>
          (o.id, rs.status, coalesceMinutes rs op)

def q15Remaining (db : Db) : List (ℕ × Option ℤ) :=
  (((q15Joined db).map fun r => r.1).dedup).map fun k =>
    (k, sqlSumFilter ((q15Joined db).filter fun r => r.1 = k)
          (fun r => r.2.1 ≠ StepStatus.done) (fun r => r.2.2))

/-- `ORDER BY nzp_cost_rub DESC`: in PostgreSQL `DESC` puts `NULL`s first,
so `NULL` sorts as the most negative key and values descend by negation. -/
def q15Key (r : Q15Row) : ℕ ×ₗ ℤ :=
  match r.nzp_cost_rub with
  | none => toLex (0, 0)
  | some v => toLex (1, -v)

def q15 (db : Db) : List Q15Row :=
  List.insertionSort (keyLe q15Key)
    ((q15Remaining db).map fun km =>
      ⟨km.1, km.2, km.2.map fun v => pgRoundDiv (v * 100) 60, 1500,
        km.2.map fun v => pgRoundDiv (v * 1500) 60⟩)

/-! ### Q16 — work-in-progress per workshop

```
WITH wip AS (
  SELECT w.name AS workshop,
    SUM(COALESCE(rs.planned_minutes, op.default_minutes, 0))
      FILTER (WHERE rs.status <> 'DONE') AS wip_minutes
  FROM route_steps rs JOIN operations op ... LEFT JOIN workshops w ...
  GROUP BY w.name)
SELECT workshop, wip_minutes, ROUND(wip_minutes / 60.0, 2) AS wip_hours,
  1500 AS rate_rub_per_hour, ROUND((wip_minutes / 60.0) * 1500, 0) AS wip_cost_rub
FROM wip WHERE wip_minutes > 0 ORDER BY wip_cost_rub DESC;
```
Note: unlike Q15, the `FROM` clause never joins `orders`, so no order-status
restriction is applied. -/

structure Q16Row where
  workshop : Option String
  wip_minutes : Option ℤ
  wip_hours_hundredths : Option ℤ
  rate_rub_per_hour : ℤ
  wip_cost_rub : Option ℤ
deriving DecidableEq

def q16Joined (db : Db) : List (Option String × StepStatus × ℤ) :=
  db.route_steps.flatMap fun rs =>
    (db.operations.filter fun op => op.id = rs.operation_id).flatMap fun op =>
      (leftJoin (db.workshops.filter fun w => rs.workshop_id = some w.id)).map fun w? =>
        (w?.map Workshop.name, rs.status, coalesceMinutes rs op)

def q16Wip (db : Db) : List (Option String × Option ℤ) :=
  (((q16Joined db).map fun r => r.1).dedup).map fun k =>
    (k, sqlSumFilter ((q16Joined db).filter fun r => r.1 = k)
          (fun r => r.2.1 ≠ StepStatus.done) (fun r => r.2.2))

def q16Key (r : Q16Row) : ℕ ×ₗ ℤ :=
  match r.wip_cost_rub with
  | none => toLex (0, 0)
  | some v => toLex (1, -v)

def q16 (db : Db) : List Q16Row :=
  List.insertionSort (keyLe q16Key)
    (((q16Wip db).filter fun km =>
        match km.2 with
        | some v => 0 < v
        | none => False).map fun km =>
      ⟨km.1, km.2, km.2.map fun v => pgRoundDiv (v * 100) 60, 1500,
        km.2.map fun v => pgRoundDiv (v * 1500) 60⟩)

/-! ## Backend (`backend/server.js`)

Each Express handler becomes a pure function.  The authenticated principal
decoded from the JWT by `authMiddleware` is an `Option Principal` argument
(`none` = missing/invalid token, answered 401).  Every handler returns its
HTTP status code, its response data and/or resulting table state, and a
`Bool` recording whether `pool.connect()` was reached (`true` exactly on the
paths of the source that acquire a store connection). -/

structure Principal where
  id : ℕ
  username : String
  role : String
deriving DecidableEq

/-- A row of the backend's `orders` table (the public-form schema used by
`server.js`: customer contact fields plus free-text status). -/
structure BOrder where
  id : ℕ
  customer_name : String
  customer_phone : String
  customer_email : Option String
  services : String
  message : Option String
  status : String
  created_at : ℤ
  updated_at : Option ℤ
deriving DecidableEq

structure BUser where
  id : ℕ
  username : String
  password_hash : String
  full_name : Option String
  role : String
  created_at : ℤ
deriving DecidableEq

/-- A row of the externally refreshed `order_stats_mv` materialized view. -/
structure MvRow where
  day : ℤ
  status : String
  cnt : ℤ
deriving DecidableEq

structure BDb where
  orders : List BOrder
  users : List BUser
  order_stats_mv : List MvRow
deriving DecidableEq

/-- JavaScript falsiness of an optional string (`undefined` or `""`). -/
def strFalsy (s : Option String) : Bool :=
  match s with
  | none => true
  | some s => s = ""

/-- `parseInt(s, 10)` for the inputs exercised here: the longest leading
digit prefix, `none` for `NaN` (no leading digit). -/
def jsParseInt (s : String) : Option ℕ :=
  let ds := s.data.takeWhile Char.isDigit
  if ds.isEmpty then none
  else some (ds.foldl (fun n c => 10 * n + (c.toNat - 48)) 0)

/-- PostgreSQL coercion of a text parameter compared against an `integer`
column (`WHERE id = $n`): the whole literal must be numeric, otherwise the
query fails. -/
def pgIntParam (s : String) : Option ℕ :=
  if s.data ≠ [] ∧ s.data.all Char.isDigit then
    some (s.data.foldl (fun n c => 10 * n + (c.toNat - 48)) 0)
  else none

/-- `GET /stats/mv` — `authMiddleware, adminOnlyMiddleware`, then
`SELECT * FROM order_stats_mv`. -/
def getStatsMv (auth : Option Principal) (db : BDb) :
    ℕ × Option (List MvRow) × Bool :=
  match auth with
  | none => (401, none, false)
  | some p =>
    if p.role ≠ "ADMIN" then (403, none, false)
    else (200, some db.order_stats_mv, true)

/-- The `/stats` response body: order totals and per-status counts, user
count, and mean completion time in hours for `DONE` orders that have
`updated_at` set (`null` when there are none). -/
structure StatsReport where
  totalOrders : ℕ
  newOrders : ℕ
  inProgressOrders : ℕ
  doneOrders : ℕ
  canceledOrders : ℕ
  totalUsers : ℕ
  avgCompletionHours : Option ℚ

def computeStats (db : BDb) : StatsReport :=
  let doneRows := db.orders.filter fun o => o.status = "DONE" ∧ o.updated_at ≠ none
  let avgSecondsSum : ℤ := (doneRows.map fun o => o.updated_at.getD 0 - o.created_at).sum
  { totalOrders := db.orders.length
    newOrders := (db.orders.filter fun o => o.status = "NEW").length
    inProgressOrders := (db.orders.filter fun o => o.status = "IN_PROGRESS").length
    doneOrders := (db.orders.filter fun o => o.status = "DONE").length
    canceledOrders := (db.orders.filter fun o => o.status = "CANCELED").length
    totalUsers := db.users.length
    avgCompletionHours :=
      if doneRows.isEmpty then none
      else some ((avgSecondsSum : ℚ) / (doneRows.length : ℚ) / 3600) }

/-- `GET /stats` — guarded by `authMiddleware` only. -/
def getStats (auth : Option Principal) (db : BDb) :
    ℕ × Option StatsReport × Bool :=
  match auth with
  | none => (401, none, false)
  | some _ => (200, some (computeStats db), true)

/-- The handler's fixed status allow-list for the `GET /orders` filter. -/
def statusAllowList : List String :=
  ["NEW", "IN_PROGRESS", "DONE", "CANCELED"]

/-- The three sortable columns the `allowedSortFields` object literal
declares as its own properties. -/
inductive SortField
  | createdAt
  | customerName
  | statusField
deriving DecidableEq

/-- Keys every plain JavaScript object answers truthily through the
`Object.prototype` chain: looking one of these up on the
`allowedSortFields` object literal yields the inherited function (or, for
`__proto__`, the prototype object) rather than `undefined`. -/
def objectPrototypeMembers : List String :=
  ["constructor", "hasOwnProperty", "isPrototypeOf", "propertyIsEnumerable",
    "toLocaleString", "toString", "valueOf", "__proto__",
    "__defineGetter__", "__defineSetter__", "__lookupGetter__",
    "__lookupSetter__"]

/-- The result of the JavaScript member access `allowedSortFields[sort]`:
one of the three own properties (a column name), a truthy member inherited
from `Object.prototype`, or `undefined` (which the `|| "created_at"`
fallback then replaces). -/
inductive SortLookup
  | field (f : SortField)
  | protoMember
  | undef
deriving DecidableEq

def allowedSortFields (sort : Option String) : SortLookup :=
  match sort with
  | some "created_at" => SortLookup.field SortField.createdAt
  | some "customer_name" => SortLookup.field SortField.customerName
  | some "status" => SortLookup.field SortField.statusField
  | some s =>
    if s ∈ objectPrototypeMembers then SortLookup.protoMember
    else SortLookup.undef
  | none => SortLookup.undef

/-- Case-insensitive containment, for `ILIKE '%q%'`. -/
def iContains (hay needle : String) : Bool :=
  ((hay.data.map Char.toLower).tails).any fun t =>
    (needle.data.map Char.toLower).isPrefixOf t

/-- The five-column `ILIKE` search predicate of `GET /orders`. -/
def matchesQ (needle : String) (o : BOrder) : Bool :=
  iContains o.customer_name needle || iContains o.customer_phone needle ||
    iContains (o.customer_email.getD "") needle || iContains o.services needle ||
    iContains (o.message.getD "") needle

def sortOrders (f : SortField) (asc : Bool) (l : List BOrder) : List BOrder :=
  match f with
  | SortField.createdAt =>
    List.insertionSort
      (fun a b => if asc then a.created_at ≤ b.created_at else b.created_at ≤ a.created_at) l
  | SortField.customerName =>
    List.insertionSort
      (fun a b =>
        if asc then strKey a.customer_name ≤ strKey b.customer_name
        else strKey b.customer_name ≤ strKey a.customer_name) l
  | SortField.statusField =>
    List.insertionSort
      (fun a b => if asc then strKey a.status ≤ strKey b.status
        else strKey b.status ≤ strKey a.status) l

/-- `GET /orders` — `pool.connect()` is acquired at the top of the handler,
then: status filter only when the value is truthy and in the allow-list,
`q` filter only when truthy after trimming, sort field from
`allowedSortFields[sort] || "created_at"` with `DESC` default direction.
When the lookup hits an `Object.prototype` member (a truthy non-column
value such as `constructor`), that value is interpolated into the `ORDER
BY` clause and the query fails with a syntax error, answered 500. -/
def getOrders (auth : Option Principal) (qp statusp sortp dirp : Option String)
    (db : BDb) : ℕ × Option (List BOrder) × Bool :=
  match auth with
  | none => (401, none, false)
  | some _ =>
    let afterStatus :=
      match statusp with
      | some s =>
        if s ≠ "" ∧ s ∈ statusAllowList then db.orders.filter fun o => o.status = s
        else db.orders
      | none => db.orders
    let afterQ :=
      match qp with
      | some s =>
        if s.trim ≠ "" then afterStatus.filter (matchesQ s.trim) else afterStatus
      | none => afterStatus
    let asc :=
      match dirp with
      | some d => d.toLower = "asc"
      | none => false
    match allowedSortFields sortp with
    | SortLookup.field f => (200, some (sortOrders f asc afterQ), true)
    | SortLookup.protoMember => (500, none, true)
    | SortLookup.undef =>
      (200, some (sortOrders SortField.createdAt asc afterQ), true)

/-- `PATCH /orders/:id/status` — validates only that a truthy `status` is
present, then runs
`UPDATE orders SET status = $1, updated_at = NOW() WHERE id = $2`. -/
def patchOrderStatus (auth : Option Principal) (idStr : String)
    (statusBody : Option String) (now : ℤ) (db : List BOrder) :
    ℕ × List BOrder × Bool :=
  match auth with
  | none => (401, db, false)
  | some _ =>
    if strFalsy statusBody then (400, db, false)
    else
      match pgIntParam idStr with
      | none => (500, db, true)
      | some oid =>
        if db.any fun o => o.id = oid then
          (200,
            db.map fun o =>
              if o.id = oid then
                { o with status := statusBody.getD "", updated_at := some now }
              else o,
            true)
        else (404, db, true)

/-- `DELETE /users/:id` — `authMiddleware, adminOnlyMiddleware`, then the
self-deletion guard `parseInt(req.params.id, 10) === req.user.id` before
`pool.connect()`, then the delete. -/
def deleteUser (auth : Option Principal) (idStr : String) (db : List BUser) :
    ℕ × List BUser × Bool :=
  match auth with
  | none => (401, db, false)
  | some p =>
    if p.role ≠ "ADMIN" then (403, db, false)
    else
      match jsParseInt idStr with
      | some uid =>
        if uid = p.id then (400, db, false)
        else if db.any fun u => u.id = uid then
          (200, db.filter fun u => ¬u.id = uid, true)
        else (404, db, true)
      | none => (500, db, true)

/-- `POST /users` — `authMiddleware, adminOnlyMiddleware`; requires truthy
`username` and `password`; coerces the requested role by
`role === "ADMIN" ? "ADMIN" : "MANAGER"`; a duplicate username raises the
unique-violation error answered with 400.  Password hashing is the external
`bcrypt` collaborator, passed in as `hashFn`; `newId`/`now` stand for the
store-generated id and timestamp. -/
def createUser (hashFn : String → String) (auth : Option Principal)
    (username password full_name role : Option String) (newId : ℕ) (now : ℤ)
    (db : List BUser) : ℕ × Option BUser × List BUser × Bool :=
  match auth with
  | none => (401, none, db, false)
  | some p =>
    if p.role ≠ "ADMIN" then (403, none, db, false)
    else if strFalsy username ∨ strFalsy password then (400, none, db, false)
    else
      let u := (username.getD "")
      let userRole := if role = some "ADMIN" then "ADMIN" else "MANAGER"
      if db.any fun x => x.username = u then (400, none, db, true)
      else
        let nu : BUser :=
          ⟨newId, u, hashFn (password.getD ""),
            (if strFalsy full_name then none else full_name), userRole, now⟩
        (201, some nu, db ++ [nu], true)

/-! ### Specification-side definitions

Direct renderings of the spec's wording, used to compare the queries'
group-by pipelines against the per-entity aggregates the spec describes. -/

/-- The spec's per-step remaining duration: `planned_minutes` if present,
else the step's Operation `default_minutes`, else zero. -/
def stepMinutes (db : Db) (rs : RouteStep) : ℤ :=
  match rs.planned_minutes with
  | some m => m
  | none =>
    match db.operations.find? fun op => op.id = rs.operation_id with
    | some op => op.default_minutes.getD 0
    | none => 0

/-- All route steps of an order, through its items. -/
def orderSteps (db : Db) (o : Order) : List RouteStep :=
  (db.order_items.filter fun oi => oi.order_id = o.id).flatMap fun oi =>
    db.route_steps.filter fun rs => rs.order_item_id = oi.id

/-- The remaining-minutes aggregate as the claim states it: the sum of
`stepMinutes` over the order's non-`DONE` steps. -/
def claimRemainingMinutes (db : Db) (o : Order) : ℤ :=
  (((orderSteps db o).filter fun rs => rs.status ≠ StepStatus.done).map
    (stepMinutes db)).sum

/-- The workshop bucket a route step falls into under
`LEFT JOIN workshops w ON w.id = rs.workshop_id` + `GROUP BY w.name`:
the workshop's name, or `none` when the step has no (resolvable)
workshop. -/
def bucketOf (db : Db) (rs : RouteStep) : Option String :=
  match rs.workshop_id with
  | none => none
  | some wid => (db.workshops.find? fun w => w.id = wid).map Workshop.name

/-- Per-workshop-bucket work-in-progress minutes over ALL route steps
(what Q16 actually aggregates). -/
def specWipBucket (db : Db) (b : Option String) : ℤ :=
  ((db.route_steps.filter fun rs =>
      rs.status ≠ StepStatus.done ∧ bucketOf db rs = b).map (stepMinutes db)).sum

/-- The status of the order owning a route step, through its item. -/
def orderStatusOfStep (db : Db) (rs : RouteStep) : Option OrderStatus :=
  (db.order_items.find? fun oi => oi.id = rs.order_item_id).bind fun oi =>
    (db.orders.find? fun o => o.id = oi.order_id).map Order.status

/-- Per-workshop-bucket work-in-progress minutes as claim C4 states them:
the same aggregation restricted to steps of `PLANNED`/`IN_PROGRESS`
orders. -/
def claimWipBucket (db : Db) (b : Option String) : ℤ :=
  ((db.route_steps.filter fun rs =>
      rs.status ≠ StepStatus.done ∧ bucketOf db rs = b ∧
        (orderStatusOfStep db rs = some OrderStatus.planned ∨
          orderStatusOfStep db rs = some OrderStatus.inProgress)).map
    (stepMinutes db)).sum

/-- The operation logs recorded on an equipment unit. -/
def logsOf (db : Db) (e : Equipment) : List OperationLog :=
  db.operation_logs.filter fun ol => ol.equipment_id = some e.id

/-- The logs on an equipment unit whose status is `IN_PROGRESS`. -/
def activeLogsOf (db : Db) (e : Equipment) : List OperationLog :=
  (logsOf db e).filter fun ol => ol.status = "IN_PROGRESS"

/-- Well-formedness of the relational store assumed by the aggregate
theorems: primary keys are unique and every route step resolves its
operation (the spec's §4.1 failure semantics: dangling references are
rejected at write time). -/
def Db.WF (db : Db) : Prop :=
  (db.orders.map Order.id).Nodup ∧
    (db.order_items.map OrderItem.id).Nodup ∧
    (db.products.map Product.id).Nodup ∧
    (db.operations.map Operation.id).Nodup ∧
    (db.workshops.map Workshop.id).Nodup ∧
    (db.equipment.map Equipment.id).Nodup ∧
    ∀ rs ∈ db.route_steps, ∃ op ∈ db.operations, op.id = rs.operation_id

instance (db : Db) : Decidable db.WF := by
  unfold Db.WF
  infer_instance

/-! ### Concrete stores for counterexamples and witnesses -/

/-- A small analytics store.
Order 1 (`PLANNED`) has item 1 with a `PLANNED` step (no. 1, 60 min,
workshop 1) and an `IN_PROGRESS` step (no. 2, falls back to the operation's
30 min default, finish planned at instant 100).  Order 2 (`DONE`) has item 2
with a `PLANNED` 45-minute step in workshop 1.  Order 3 (`IN_PROGRESS`) has
item 3 whose only step is `DONE`.  Order 4 (`PLANNED`) has no items.
Equipment 1 has one `IN_PROGRESS` and one `DONE` log; equipment 2 has no
logs. -/
def exDbA : Db :=
  { orders := [⟨1, OrderStatus.planned⟩, ⟨2, OrderStatus.done⟩,
      ⟨3, OrderStatus.inProgress⟩, ⟨4, OrderStatus.planned⟩]
    order_items := [⟨1, 1, 1⟩, ⟨2, 2, 1⟩, ⟨3, 3, 1⟩]
    products := [⟨1, "part"⟩]
    route_steps :=
      [⟨1, 1, 1, 1, some 1, StepStatus.planned, some 60, none⟩,
        ⟨2, 1, 2, 1, none, StepStatus.inProgress, none, some 100⟩,
        ⟨3, 2, 1, 1, some 1, StepStatus.planned, some 45, none⟩,
        ⟨4, 3, 1, 1, none, StepStatus.done, some 10, none⟩]
    operations := [⟨1, "cut", some 30⟩]
    workshops := [⟨1, "W"⟩]
    equipment := [⟨1, "mill", some 1⟩, ⟨2, "lathe", none⟩]
    operation_logs := [⟨1, 1, some 1, "IN_PROGRESS"⟩, ⟨2, 1, some 1, "DONE"⟩] }

/-- A small backend store: one `NEW` order, an admin and a manager. -/
def exBDb : BDb :=
  { orders := [⟨1, "Ann", "111", none, "cut", none, "NEW", 10, none⟩]
    users := [⟨1, "admin", "h1", none, "ADMIN", 0⟩,
      ⟨2, "mgr", "h2", none, "MANAGER", 0⟩]
    order_stats_mv := [⟨0, "NEW", 1⟩] }

/-- The manager principal of `exBDb`, as decoded from its JWT. -/
def mgrP : Principal := ⟨2, "mgr", "MANAGER"⟩

/-- The admin principal of `exBDb`. -/
def admP : Principal := ⟨1, "admin", "ADMIN"⟩

/-! ## Theorems -/

/-! ### Generic list lemmas for join/group-by reasoning -/

theorem filter_key_single {α κ : Type} [DecidableEq κ] (key : α → κ) :
    ∀ l : List α, (l.map key).Nodup → ∀ a ∈ l,
      l.filter (fun x => key x = key a) = [a] := by
  intro l
  induction l with
  | nil => intro _ a ha; cases ha
  | cons c cs ih =>
    intro hnd a ha
    simp only [List.map_cons, List.nodup_cons, List.mem_map] at hnd
    rcases List.mem_cons.mp ha with rfl | hmem
    · rw [List.filter_cons_of_pos (by simp)]
      have : cs.filter (fun x => key x = key a) = [] := by
        refine List.filter_eq_nil_iff.mpr fun x hx => ?_
        simp only [decide_eq_true_eq]
        intro hk
        exact hnd.1 ⟨x, hx, hk⟩
      rw [this]
    · have hne : key c ≠ key a := by
        intro hk
        exact hnd.1 ⟨a, hmem, hk.symm⟩
      rw [List.filter_cons_of_neg (by simpa using hne)]
      exact ih hnd.2 a hmem

theorem filter_key_flatMap {α β κ : Type} [DecidableEq κ] (key : α → κ)
    (keyB : β → κ) (f : α → List β) :
    ∀ l : List α, (l.map key).Nodup → (∀ x ∈ l, ∀ b ∈ f x, keyB b = key x) →
      ∀ a ∈ l, (l.flatMap f).filter (fun b => keyB b = key a) = f a := by
  intro l
  induction l with
  | nil => intro _ _ a ha; cases ha
  | cons c cs ih =>
    intro hnd hf a ha
    simp only [List.map_cons, List.nodup_cons, List.mem_map] at hnd
    rw [List.flatMap_cons, List.filter_append]
    rcases List.mem_cons.mp ha with rfl | hmem
    · have h1 : (f a).filter (fun b => keyB b = key a) = f a :=
        List.filter_eq_self.mpr fun b hb => by
          simpa using hf a (List.mem_cons_self _ _) b hb
      have h2 : (cs.flatMap f).filter (fun b => keyB b = key a) = [] := by
        refine List.filter_eq_nil_iff.mpr fun b hb => ?_
        simp only [decide_eq_true_eq]
        rcases List.mem_flatMap.mp hb with ⟨x, hx, hbx⟩
        rw [hf x (List.mem_cons_of_mem _ hx) b hbx]
        intro hk
        exact hnd.1 ⟨x, hx, hk⟩
      rw [h1, h2, List.append_nil]
    · have h1 : (f c).filter (fun b => keyB b = key a) = [] := by
        refine List.filter_eq_nil_iff.mpr fun b hb => ?_
        simp only [decide_eq_true_eq]
        rw [hf c (List.mem_cons_self _ _) b hb]
        intro hk
        exact hnd.1 ⟨a, hmem, hk.symm⟩
      rw [h1, List.nil_append]
      exact ih hnd.2 (fun x hx => hf x (List.mem_cons_of_mem _ hx)) a hmem

theorem filter_nil_or_single {α : Type} (p : α → Bool) :
    ∀ l : List α, l.Nodup →
      (∀ x ∈ l, ∀ y ∈ l, p x = true → p y = true → x = y) →
      l.filter p = [] ∨ ∃ a, a ∈ l ∧ p a = true ∧ l.filter p = [a] := by
  intro l
  induction l with
  | nil => intro _ _; exact Or.inl rfl
  | cons c cs ih =>
    intro hnd huniq
    rcases List.nodup_cons.mp hnd with ⟨hc, hnd'⟩
    by_cases hpc : p c = true
    · refine Or.inr ⟨c, List.mem_cons_self _ _, hpc, ?_⟩
      rw [List.filter_cons_of_pos hpc]
      have : cs.filter p = [] := by
        refine List.filter_eq_nil_iff.mpr fun x hx hpx => ?_
        exact hc (huniq x (List.mem_cons_of_mem _ hx) c (List.mem_cons_self _ _)
          hpx hpc ▸ hx)
      rw [this]
    · rw [List.filter_cons_of_neg (by simpa using hpc)]
      rcases ih hnd' (fun x hx y hy => huniq x (List.mem_cons_of_mem _ hx) y
          (List.mem_cons_of_mem _ hy)) with h | ⟨a, ha, hpa, hfa⟩
      · exact Or.inl h
      · exact Or.inr ⟨a, List.mem_cons_of_mem _ ha, hpa, hfa⟩

theorem find?_of_filter_single {α : Type} (p : α → Bool) :
    ∀ l : List α, ∀ a, l.filter p = [a] → l.find? p = some a := by
  intro l
  induction l with
  | nil => intro a h; cases h
  | cons c cs ih =>
    intro a h
    by_cases hpc : p c = true
    · rw [List.filter_cons_of_pos hpc] at h
      rcases List.cons_eq_cons.mp h with ⟨rfl, _⟩
      exact List.find?_cons_of_pos _ hpc
    · rw [List.filter_cons_of_neg (by simpa using hpc)] at h
      rw [List.find?_cons_of_neg _ (by simpa using hpc)]
      exact ih a h

theorem find?_of_filter_nil {α : Type} (p : α → Bool) (l : List α)
    (h : l.filter p = []) : l.find? p = none := by
  rw [List.find?_eq_none]
  intro a ha hpa
  have : a ∈ l.filter p := List.mem_filter.mpr ⟨ha, hpa⟩
  rw [h] at this
  cases this

/-! ### Arithmetic facts about the embedded `ROUND` -/

theorem pgRoundDiv_nonneg {num den : ℤ} (hn : 0 ≤ num) (hd : 0 ≤ den) :
    0 ≤ pgRoundDiv num den := by
  unfold pgRoundDiv
  rw [if_pos hn]
  exact Int.ediv_nonneg (by omega) (by omega)

theorem pgRoundDiv_mono {den a b : ℤ} (hd : 0 < den) (ha : 0 ≤ a) (h : a ≤ b) :
    pgRoundDiv a den ≤ pgRoundDiv b den := by
  unfold pgRoundDiv
  rw [if_pos ha, if_pos (le_trans ha h)]
  exact Int.ediv_le_ediv (by omega) (by omega)

/-- `ROUND((m / 60.0) * 1500, 0)` is exact: the hourly rate divided by 60
minutes is the integer 25. -/
theorem pgRoundDiv_rate (v : ℤ) : pgRoundDiv (v * 1500) 60 = 25 * v := by
  unfold pgRoundDiv
  norm_num
  split <;> omega

/-! ### C8 — self-deletion of the authenticated user is rejected -/

/-- C8 (confirmed): a `DELETE /users/:id` request whose target id parses to
the authenticated principal's own id is answered with a 4xx status whatever
the principal's role, the user table is unchanged, and `pool.connect()` is
never reached. -/
theorem delete_user_self_rejected (p : Principal) (idStr : String)
    (db : List BUser) (h : jsParseInt idStr = some p.id) :
    (400 ≤ (deleteUser (some p) idStr db).1 ∧
        (deleteUser (some p) idStr db).1 < 500) ∧
      (deleteUser (some p) idStr db).2.1 = db ∧
      (deleteUser (some p) idStr db).2.2 = false := by
  by_cases hr : p.role = "ADMIN" <;>
    simp [deleteUser, h, hr]

/-- Witness for C8: the manager of `exBDb` asking to delete user id 2
(their own id) is turned away without touching the store. -/
theorem delete_user_self_rejected_witness :
    jsParseInt "2" = some mgrP.id ∧
      ((400 ≤ (deleteUser (some mgrP) "2" exBDb.users).1 ∧
          (deleteUser (some mgrP) "2" exBDb.users).1 < 500) ∧
        (deleteUser (some mgrP) "2" exBDb.users).2.1 = exBDb.users ∧
        (deleteUser (some mgrP) "2" exBDb.users).2.2 = false) :=
  ⟨by decide, delete_user_self_rejected mgrP "2" exBDb.users (by decide)⟩

/-! ### C9 — role coercion on user creation -/

/-- C9 (confirmed): whenever `POST /users` returns a created user, that
user's stored role is `ADMIN` exactly when the request supplied the string
`ADMIN`, and `MANAGER` otherwise; in particular the stored role is always
one of the two. -/
theorem create_user_role_coercion (hashFn : String → String)
    (auth : Option Principal) (username password full_name role : Option String)
    (newId : ℕ) (now : ℤ) (db : List BUser) (u : BUser)
    (h : (createUser hashFn auth username password full_name role newId now
        db).2.1 = some u) :
    (u.role = "ADMIN" ↔ role = some "ADMIN") ∧
      (u.role = "ADMIN" ∨ u.role = "MANAGER") := by
  unfold createUser at h
  rcases auth with _ | p
  · cases h
  · simp only at h
    split at h
    · cases h
    · split at h
      · cases h
      · split at h
        · cases h
        · simp only [Option.some.injEq] at h
          subst h
          by_cases hrole : role = some "ADMIN" <;> simp [hrole]

/-! ### C10 — unknown status filter values are silently dropped -/

theorem mem_sortOrders (f : SortField) (asc : Bool) (l : List BOrder)
    (o : BOrder) : o ∈ sortOrders f asc l ↔ o ∈ l := by
  cases f <;> simp [sortOrders, List.mem_insertionSort]

/-- C10 (confirmed): a `GET /orders` request whose `status` parameter lies
outside `{NEW, IN_PROGRESS, DONE, CANCELED}` (for example the valid order
status `PLANNED`) behaves exactly as if no status filter had been given, and
with no search term every stored order — whatever its status — is in the
response. -/
theorem get_orders_unknown_status_dropped (p : Principal)
    (qp sortp dirp : Option String) (s : String) (hs : s ∉ statusAllowList)
    (db : BDb) :
    getOrders (some p) qp (some s) sortp dirp db =
        getOrders (some p) qp none sortp dirp db ∧
      ∀ o ∈ db.orders, ∀ l,
        (getOrders (some p) none (some s) sortp dirp db).2.1 = some l → o ∈ l := by
  constructor
  · simp [getOrders, hs]
  · intro o ho l hl
    simp only [getOrders, hs] at hl
    rw [if_neg (by simp [hs])] at hl
    rcases hcase : allowedSortFields sortp with f | _ | _ <;>
      rw [hcase] at hl <;> simp only [Option.some.injEq] at hl
    · subst hl
      exact (mem_sortOrders _ _ _ _).mpr ho
    · cases hl
    · subst hl
      exact (mem_sortOrders _ _ _ _).mpr ho

/-- Witness for C10: `status=PLANNED` on `exBDb` drops the filter and the
`NEW` order is still returned. -/
theorem get_orders_unknown_status_dropped_witness :
    ("PLANNED" : String) ∉ statusAllowList ∧
      (getOrders (some mgrP) none (some "PLANNED") none none exBDb =
          getOrders (some mgrP) none none none none exBDb ∧
        ∀ o ∈ exBDb.orders, ∀ l,
          (getOrders (some mgrP) none (some "PLANNED") none none exBDb).2.1 =
              some l → o ∈ l) :=
  ⟨by decide,
    get_orders_unknown_status_dropped mgrP none none none "PLANNED" (by decide)
      exBDb⟩

/-! ### C6 — admin-only enforcement on the statistics endpoints -/

/-- Counterexample to C6: the `MANAGER` principal of `exBDb` requests
`GET /stats` and receives status 200 with report data — not the 403 and
empty body the claim asserts for non-`ADMIN` principals. -/
theorem stats_returned_to_manager :
    mgrP.role ≠ "ADMIN" ∧ (getStats (some mgrP) exBDb).1 = 200 ∧
      ((getStats (some mgrP) exBDb).2.1).isSome = true :=
  ⟨by decide, rfl, rfl⟩

/-- C6 (corrected): only `GET /stats/mv` is behind `adminOnlyMiddleware`;
it answers 403 with no data to authenticated non-`ADMIN` principals and
serves the view to `ADMIN`s, while `GET /stats` returns the aggregate report
to every authenticated principal regardless of role; unauthenticated
requests get 401 from both. -/
theorem stats_admin_enforcement_actual (p : Principal) (db : BDb)
    (h : p.role ≠ "ADMIN") :
    getStatsMv (some p) db = (403, none, false) ∧
      getStats (some p) db = (200, some (computeStats db), true) ∧
      getStatsMv none db = (401, none, false) ∧
      getStats none db = (401, none, false) ∧
      ∀ p' : Principal, p'.role = "ADMIN" →
        getStatsMv (some p') db = (200, some db.order_stats_mv, true) := by
  refine ⟨by simp [getStatsMv, h], rfl, rfl, rfl, fun p' hp' => by
    simp [getStatsMv, hp']⟩

/-- Witness for C6's corrected statement at the manager of `exBDb`. -/
theorem stats_admin_enforcement_actual_witness :
    getStatsMv (some mgrP) exBDb = (403, none, false) ∧
      getStats (some mgrP) exBDb = (200, some (computeStats exBDb), true) ∧
      getStatsMv none exBDb = (401, none, false) ∧
      getStats none exBDb = (401, none, false) ∧
      ∀ p' : Principal, p'.role = "ADMIN" →
        getStatsMv (some p') exBDb = (200, some exBDb.order_stats_mv, true) :=
  stats_admin_enforcement_actual mgrP exBDb (by decide)

/-! ### C7 — validation against allow-lists -/

/-- Counterexample to C7: a `PATCH /orders/1/status` request carrying the
status value `BOGUS`, which is outside every allow-list, is not rejected:
the handler reaches the store and rewrites the order's status to `BOGUS`. -/
theorem patch_status_accepts_invalid_value :
    ("BOGUS" : String) ∉ statusAllowList ∧
      (patchOrderStatus (some mgrP) "1" (some "BOGUS") 99 exBDb.orders).1 = 200 ∧
      (patchOrderStatus (some mgrP) "1" (some "BOGUS") 99 exBDb.orders).2.2 = true ∧
      ∃ o ∈ (patchOrderStatus (some mgrP) "1" (some "BOGUS") 99 exBDb.orders).2.1,
        o.id = 1 ∧ o.status = "BOGUS" := by
  decide

/-- C7 (corrected): the only `PATCH /orders/:id/status` validation performed
before store access is presence of a truthy `status`; any non-empty status
string — valid or not — is written through to the matched order.  An
out-of-allow-list `sort` value on `GET /orders` is never rejected with a
validation error either: a value that is neither a declared column nor an
`Object.prototype` member silently falls back to `created_at`, while a
prototype-chain key such as `constructor` is interpolated into the query
and fails it, answered 500 after the connection was acquired; every
authenticated `GET /orders` reaches the store and answers 200 or 500,
never a 4xx validation rejection. -/
theorem validation_behavior_actual (p : Principal) (db : BDb) :
    (∀ (idStr : String) (now : ℤ),
        patchOrderStatus (some p) idStr none now db.orders =
            (400, db.orders, false) ∧
          patchOrderStatus (some p) idStr (some "") now db.orders =
            (400, db.orders, false)) ∧
      (∀ (idStr s : String) (now : ℤ) (oid : ℕ), s ≠ "" →
        pgIntParam idStr = some oid →
        (db.orders.any fun o => o.id = oid) = true →
        (patchOrderStatus (some p) idStr (some s) now db.orders).1 = 200 ∧
          (patchOrderStatus (some p) idStr (some s) now db.orders).2.2 = true ∧
          ∀ o ∈ (patchOrderStatus (some p) idStr (some s) now db.orders).2.1,
            o.id = oid → o.status = s) ∧
      (∀ (qp statusp dirp : Option String) (srt : String),
        srt ∉ (["created_at", "customer_name", "status"] : List String) →
        srt ∉ objectPrototypeMembers →
        getOrders (some p) qp statusp (some srt) dirp db =
          getOrders (some p) qp statusp none dirp db) ∧
      (∀ (qp statusp dirp : Option String) (srt : String),
        srt ∈ objectPrototypeMembers →
        getOrders (some p) qp statusp (some srt) dirp db =
          (500, none, true)) ∧
      ∀ qp statusp sortp dirp : Option String,
        ((getOrders (some p) qp statusp sortp dirp db).1 = 200 ∨
            (getOrders (some p) qp statusp sortp dirp db).1 = 500) ∧
          (getOrders (some p) qp statusp sortp dirp db).2.2 = true := by
  refine ⟨?_, ?_, ?_, ?_, ?_⟩
  · intro idStr now
    constructor <;> simp [patchOrderStatus, strFalsy]
  · intro idStr s now oid hs hparse hany
    simp only [patchOrderStatus, strFalsy, hparse, hany]
    rw [if_neg (by simpa using hs)]
    refine ⟨rfl, rfl, ?_⟩
    intro o ho hid
    rcases List.mem_map.mp ho with ⟨o', _, rfl⟩
    by_cases h' : o'.id = oid
    · simp [h']
    · simp only [if_neg h'] at hid ⊢
      exact absurd hid h'
  · intro qp statusp dirp srt hsrt hproto
    have h1 : allowedSortFields (some srt) = SortLookup.undef := by
      unfold allowedSortFields
      split <;> simp_all
    simp only [getOrders, h1]
    rfl
  · intro qp statusp dirp srt hproto
    have h1 : allowedSortFields (some srt) = SortLookup.protoMember := by
      unfold allowedSortFields
      split
      · simp_all [objectPrototypeMembers]
      · simp_all [objectPrototypeMembers]
      · simp_all [objectPrototypeMembers]
      · rename_i heq
        rw [if_pos ((Option.some_inj.mp heq) ▸ hproto)]
      · rename_i heq
        simp at heq
    simp only [getOrders, h1]
  · intro qp statusp sortp dirp
    rcases hcase : allowedSortFields sortp with f | _ | _ <;>
      simp [getOrders, hcase]

/-- Witness for C7's corrected statement at the manager and store
`exBDb`. -/
theorem validation_behavior_actual_witness :
    (∀ (idStr : String) (now : ℤ),
        patchOrderStatus (some mgrP) idStr none now exBDb.orders =
            (400, exBDb.orders, false) ∧
          patchOrderStatus (some mgrP) idStr (some "") now exBDb.orders =
            (400, exBDb.orders, false)) ∧
      (∀ (idStr s : String) (now : ℤ) (oid : ℕ), s ≠ "" →
        pgIntParam idStr = some oid →
        (exBDb.orders.any fun o => o.id = oid) = true →
        (patchOrderStatus (some mgrP) idStr (some s) now exBDb.orders).1 = 200 ∧
          (patchOrderStatus (some mgrP) idStr (some s) now exBDb.orders).2.2 = true ∧
          ∀ o ∈ (patchOrderStatus (some mgrP) idStr (some s) now exBDb.orders).2.1,
            o.id = oid → o.status = s) ∧
      (∀ (qp statusp dirp : Option String) (srt : String),
        srt ∉ (["created_at", "customer_name", "status"] : List String) →
        srt ∉ objectPrototypeMembers →
        getOrders (some mgrP) qp statusp (some srt) dirp exBDb =
          getOrders (some mgrP) qp statusp none dirp exBDb) ∧
      (∀ (qp statusp dirp : Option String) (srt : String),
        srt ∈ objectPrototypeMembers →
        getOrders (some mgrP) qp statusp (some srt) dirp exBDb =
          (500, none, true)) ∧
      ∀ qp statusp sortp dirp : Option String,
        ((getOrders (some mgrP) qp statusp sortp dirp exBDb).1 = 200 ∨
            (getOrders (some mgrP) qp statusp sortp dirp exBDb).1 = 500) ∧
          (getOrders (some mgrP) qp statusp sortp dirp exBDb).2.2 = true :=
  validation_behavior_actual mgrP exBDb

/-- Witness for C9: creating a user with requested role `"root"` through
the admin of `exBDb` stores role `MANAGER`. -/
theorem create_user_role_coercion_witness :
    (createUser id (some admP) (some "bob") (some "pw") none (some "root") 7 1
        exBDb.users).2.1 = some ⟨7, "bob", "pw", none, "MANAGER", 1⟩ ∧
      ((BUser.role ⟨7, "bob", "pw", none, "MANAGER", 1⟩ = "ADMIN" ↔
          (some "root" : Option String) = some "ADMIN") ∧
        (BUser.role ⟨7, "bob", "pw", none, "MANAGER", 1⟩ = "ADMIN" ∨
          BUser.role ⟨7, "bob", "pw", none, "MANAGER", 1⟩ = "MANAGER")) :=
  ⟨by decide,
    create_user_role_coercion id (some admP) (some "bob") (some "pw") none
      (some "root") 7 1 exBDb.users ⟨7, "bob", "pw", none, "MANAGER", 1⟩
      (by decide)⟩

/-! ### C3 — overdue step hours are non-negative and monotone in the
evaluation instant -/

theorem mem_q13 (db : Db) (now : ℤ) (r : Q13Row) (hr : r ∈ q13 db now) :
    r.planned_finish < now ∧ r.checked_at = now ∧
      r.hours_overdue_tenths = pgRoundDiv ((now - r.planned_finish) * 10) 3600 := by
  rw [q13, List.mem_insertionSort] at hr
  rcases List.mem_flatMap.mp hr with ⟨rs, _, hr'⟩
  split at hr'
  · cases hr'
  · split at hr'
    · rename_i hcond
      rcases List.mem_flatMap.mp hr' with ⟨oi, _, h2⟩
      rcases List.mem_flatMap.mp h2 with ⟨o, _, h3⟩
      rcases List.mem_flatMap.mp h3 with ⟨p, _, h4⟩
      rcases List.mem_flatMap.mp h4 with ⟨op, _, h5⟩
      rcases List.mem_map.mp h5 with ⟨w?, _, rfl⟩
      exact ⟨hcond.1, rfl, rfl⟩
    · cases hr'

/-- C3 (confirmed): every row of the overdue-step query has
`hours_overdue ≥ 0` (held in tenths of an hour), and re-evaluating at a
later instant never yields a smaller `hours_overdue` for a step with the
same planned finish. -/
theorem q13_hours_overdue_nonneg_monotone (db : Db) (now now' : ℤ)
    (h : now ≤ now') :
    (∀ r ∈ q13 db now, 0 ≤ r.hours_overdue_tenths) ∧
      ∀ r ∈ q13 db now, ∀ r' ∈ q13 db now',
        r.planned_finish = r'.planned_finish →
        r.hours_overdue_tenths ≤ r'.hours_overdue_tenths := by
  constructor
  · intro r hr
    obtain ⟨hlt, _, hval⟩ := mem_q13 db now r hr
    rw [hval]
    exact pgRoundDiv_nonneg (by omega) (by omega)
  · intro r hr r' hr' hpf
    obtain ⟨hlt, _, hval⟩ := mem_q13 db now r hr
    obtain ⟨hlt', _, hval'⟩ := mem_q13 db now' r' hr'
    rw [hval, hval', hpf]
    exact pgRoundDiv_mono (by omega) (by omega) (by omega)

/-- Witness for C3 on `exDbA` (its `IN_PROGRESS` step plans to finish at
instant 100) evaluated at the instants 200 and 300. -/
theorem q13_hours_overdue_nonneg_monotone_witness :
    (200 : ℤ) ≤ 300 ∧
      ((∀ r ∈ q13 exDbA 200, 0 ≤ r.hours_overdue_tenths) ∧
        ∀ r ∈ q13 exDbA 200, ∀ r' ∈ q13 exDbA 300,
          r.planned_finish = r'.planned_finish →
          r.hours_overdue_tenths ≤ r'.hours_overdue_tenths) :=
  ⟨by decide, q13_hours_overdue_nonneg_monotone exDbA 200 300 (by decide)⟩

/-! ### C1 — the "locate current step" query -/

theorem mem_q5_iff (db : Db) (r : Q5Row) :
    r ∈ q5 db ↔ r ∈ q5Steps db ∧
      (r.status = StepStatus.inProgress ∨ r.status = StepStatus.planned) := by
  rw [q5, List.mem_insertionSort, List.mem_filter]
  simp

theorem q5Steps_provenance (db : Db) (r : Q5Row) (hr : r ∈ q5Steps db) :
    ∃ o ∈ db.orders, ∃ oi ∈ db.order_items, ∃ p ∈ db.products,
      ∃ rs ∈ db.route_steps,
        r.order_id = o.id ∧ r.item_id = oi.id ∧ oi.order_id = o.id ∧
          p.id = oi.product_id ∧ r.product = p.name ∧
          rs.order_item_id = oi.id ∧ r.route_step_id = rs.id ∧
          r.status = rs.status := by
  unfold q5Steps at hr
  rcases List.mem_flatMap.mp hr with ⟨o, ho, h1⟩
  rcases List.mem_flatMap.mp h1 with ⟨oi, hoi, h2⟩
  rcases List.mem_flatMap.mp h2 with ⟨p, hp, h3⟩
  rcases List.mem_flatMap.mp h3 with ⟨rs, hrs, h4⟩
  rcases List.mem_flatMap.mp h4 with ⟨op, hop, h5⟩
  rcases List.mem_map.mp h5 with ⟨w?, _, rfl⟩
  rcases List.mem_filter.mp hoi with ⟨hoi', hoic⟩
  rcases List.mem_filter.mp hp with ⟨hp', hpc⟩
  rcases List.mem_filter.mp hrs with ⟨hrs', hrsc⟩
  exact ⟨o, ho, oi, hoi', p, hp', rs, hrs', rfl, rfl,
    by simpa using hoic, by simpa using hpc, rfl,
    by simpa using hrsc, rfl, rfl⟩

/-- C1 (corrected): Q5 does not select one row per item — it lists every
`IN_PROGRESS`/`PLANNED` step.  What does hold: no returned row is `DONE`;
every returned row comes from a stored route step of its item; an item all
of whose steps are `DONE` contributes no row; and within one item the sort
places every `IN_PROGRESS` row before every `PLANNED` row regardless of
`step_no`. -/
theorem q5_pending_steps_characterization (db : Db)
    (hItems : (db.order_items.map OrderItem.id).Nodup)
    (hProds : (db.products.map Product.id).Nodup) :
    (∀ r ∈ q5 db, r.status ≠ StepStatus.done) ∧
      (∀ r ∈ q5 db, ∃ rs ∈ db.route_steps,
        rs.id = r.route_step_id ∧ rs.order_item_id = r.item_id ∧
          rs.status = r.status) ∧
      (∀ i : ℕ,
        (∀ rs ∈ db.route_steps, rs.order_item_id = i →
          rs.status = StepStatus.done) →
        ∀ r ∈ q5 db, r.item_id ≠ i) ∧
      ∀ (i j : ℕ) (hi : i < (q5 db).length) (hj : j < (q5 db).length),
        i < j →
        ((q5 db).get ⟨i, hi⟩).item_id = ((q5 db).get ⟨j, hj⟩).item_id →
        ((q5 db).get ⟨i, hi⟩).status = StepStatus.planned →
        ((q5 db).get ⟨j, hj⟩).status ≠ StepStatus.inProgress := by
  have hnd : ∀ r ∈ q5 db, r.status ≠ StepStatus.done := by
    intro r hr
    rcases (mem_q5_iff db r).mp hr with ⟨_, h | h⟩ <;> rw [h] <;> intro hc <;>
      cases hc
  refine ⟨hnd, ?_, ?_, ?_⟩
  · intro r hr
    rcases (mem_q5_iff db r).mp hr with ⟨hsteps, _⟩
    rcases q5Steps_provenance db r hsteps with
      ⟨o, _, oi, _, p, _, rs, hrs, _, hitem, _, _, _, hoi, hid, hst⟩
    exact ⟨rs, hrs, hid.symm, by rw [hoi, ← hitem], hst.symm⟩
  · intro i halldone r hr hitem
    rcases (mem_q5_iff db r).mp hr with ⟨hsteps, _⟩
    rcases q5Steps_provenance db r hsteps with
      ⟨o, _, oi, _, p, _, rs, hrs, _, hitem', _, _, _, hoi, _, hst⟩
    have : rs.status = StepStatus.done := halldone rs hrs (by rw [hoi, ← hitem', hitem])
    exact hnd r hr (by rw [hst, this])
  · intro i j hi hj hij hitem hpi hpj
    have hsorted : List.Sorted (keyLe q5Key) (q5 db) := by
      rw [q5]
      exact List.sorted_insertionSort _ _
    have hkey : keyLe q5Key ((q5 db).get ⟨i, hi⟩) ((q5 db).get ⟨j, hj⟩) :=
      hsorted.rel_get_of_lt (show (⟨i, hi⟩ : Fin (q5 db).length) < ⟨j, hj⟩ from hij)
    set ri := (q5 db).get ⟨i, hi⟩ with hri
    set rj := (q5 db).get ⟨j, hj⟩ with hrj
    have hmi : ri ∈ q5 db := List.get_mem _ _ _
    have hmj : rj ∈ q5 db := List.get_mem _ _ _
    rcases q5Steps_provenance db ri ((mem_q5_iff db ri).mp hmi).1 with
      ⟨o1, _, oi1, hoi1, p1, hp1, rs1, _, hord1, hit1, hoo1, hpid1, hpn1, _, _, _⟩
    rcases q5Steps_provenance db rj ((mem_q5_iff db rj).mp hmj).1 with
      ⟨o2, _, oi2, hoi2, p2, hp2, rs2, _, hord2, hit2, hoo2, hpid2, hpn2, _, _, _⟩
    have hoieq : oi1 = oi2 :=
      List.inj_on_of_nodup_map hItems hoi1 hoi2 (by rw [← hit1, ← hit2, hitem])
    have horder : ri.order_id = rj.order_id := by
      rw [hord1, hord2, ← hoo1, ← hoo2, hoieq]
    have hpeq : p1 = p2 :=
      List.inj_on_of_nodup_map hProds hp1 hp2 (by rw [hpid1, hpid2, hoieq])
    have hprod : ri.product = rj.product := by
      rw [hpn1, hpn2, hpeq]
    unfold keyLe at hkey
    simp only [q5Key] at hkey
    rcases (Prod.Lex.le_iff _ _).mp hkey with hlt | ⟨h1, hkey2⟩
    · simp only at hlt
      rw [horder] at hlt
      exact absurd hlt (lt_irrefl _)
    · rcases (Prod.Lex.le_iff _ _).mp hkey2 with hlt2 | ⟨h2, hkey3⟩
      · simp only at hlt2
        rw [hprod] at hlt2
        exact absurd hlt2 (lt_irrefl _)
      · rcases (Prod.Lex.le_iff _ _).mp hkey3 with hlt3 | ⟨h3, _⟩
        · simp only at hlt3
          rw [hpi, hpj] at hlt3
          simp [statusRank] at hlt3
        · simp only at h3
          rw [hpi, hpj] at h3
          simp [statusRank] at h3

/-- Counterexample to C1: in `exDbA` item 1 has an `IN_PROGRESS` and a
`PLANNED` step, and Q5 returns BOTH of its rows (the `IN_PROGRESS` one
first), not at most one. -/
theorem q5_two_rows_for_one_item :
    ((q5 exDbA).filter fun r => r.item_id = 1).length = 2 ∧
      (q5 exDbA).map (fun r => (r.item_id, r.route_step_id, r.status)) =
        [(1, 2, StepStatus.inProgress), (1, 1, StepStatus.planned),
          (2, 3, StepStatus.planned)] := by
  decide

/-- Witness for C1's corrected statement on `exDbA`. -/
theorem q5_pending_steps_characterization_witness :
    ((exDbA.order_items.map OrderItem.id).Nodup ∧
        (exDbA.products.map Product.id).Nodup) ∧
      ((∀ r ∈ q5 exDbA, r.status ≠ StepStatus.done) ∧
        (∀ r ∈ q5 exDbA, ∃ rs ∈ exDbA.route_steps,
          rs.id = r.route_step_id ∧ rs.order_item_id = r.item_id ∧
            rs.status = r.status) ∧
        (∀ i : ℕ,
          (∀ rs ∈ exDbA.route_steps, rs.order_item_id = i →
            rs.status = StepStatus.done) →
          ∀ r ∈ q5 exDbA, r.item_id ≠ i) ∧
        ∀ (i j : ℕ) (hi : i < (q5 exDbA).length) (hj : j < (q5 exDbA).length),
          i < j →
          ((q5 exDbA).get ⟨i, hi⟩).item_id = ((q5 exDbA).get ⟨j, hj⟩).item_id →
          ((q5 exDbA).get ⟨i, hi⟩).status = StepStatus.planned →
          ((q5 exDbA).get ⟨j, hj⟩).status ≠ StepStatus.inProgress) :=
  ⟨⟨by decide, by decide⟩,
    q5_pending_steps_characterization exDbA (by decide) (by decide)⟩

/-! ### C5 — equipment utilization -/

theorem leftJoin_ne_nil {β : Type} (ms : List β) : leftJoin ms ≠ [] := by
  cases ms <;> simp [leftJoin]

theorem leftJoin_length {β : Type} [DecidableEq β] (ms : List β) :
    (leftJoin ms).length = if ms = [] then 1 else ms.length := by
  cases ms <;> simp [leftJoin]

theorem leftJoin_filter_any {β : Type} (ms : List β) (p : β → Bool) :
    ((leftJoin ms).filter fun m? => m?.any p).length = (ms.filter p).length := by
  cases ms with
  | nil => simp [leftJoin, Option.any]
  | cons a as =>
    simp only [leftJoin]
    rw [List.filter_map, List.length_map]
    congr 1

theorem find?_congr {β : Type} {p q : β → Bool} (h : ∀ x, p x = q x) :
    ∀ l : List β, l.find? p = l.find? q := by
  intro l
  induction l with
  | nil => rfl
  | cons a as ih =>
    by_cases hpa : p a = true
    · rw [List.find?_cons_of_pos _ hpa, List.find?_cons_of_pos _ (h a ▸ hpa)]
    · rw [List.find?_cons_of_neg _ hpa, List.find?_cons_of_neg _ (h a ▸ hpa)]
      exact ih

theorem flatMap_singleton_eq_map {α β : Type} (f : α → β) (l : List α) :
    (l.flatMap fun a => [f a]) = l.map f := by
  induction l with
  | nil => rfl
  | cons a as ih => simp [List.flatMap_cons, ih]

theorem sqlSumFilter_of_nil {α : Type} {rows : List α} {p : α → Bool}
    (f : α → ℤ) (h : rows.filter p = []) : sqlSumFilter rows p f = none := by
  unfold sqlSumFilter
  rw [h]

theorem sqlSumFilter_of_ne_nil {α : Type} {rows : List α} {p : α → Bool}
    (f : α → ℤ) (h : rows.filter p ≠ []) :
    sqlSumFilter rows p f = some (((rows.filter p).map f).sum) := by
  unfold sqlSumFilter
  cases hx : rows.filter p with
  | nil => exact absurd hx h
  | cons a as => rfl

/-- Under unique workshop ids, a `LEFT JOIN workshops ON w.id = ...` against
any foreign-key value produces exactly the `find?` row (or the `NULL`
row). -/
theorem wJoin_singleton (db : Db)
    (hW : (db.workshops.map Workshop.id).Nodup) (widOpt : Option ℕ) :
    leftJoin (db.workshops.filter fun w => widOpt = some w.id) =
      [db.workshops.find? fun w => widOpt = some w.id] := by
  rcases filter_nil_or_single (fun w => decide (widOpt = some w.id))
      db.workshops (hW.of_map _)
      (fun x hx y hy hpx hpy => by
        simp only [decide_eq_true_eq] at hpx hpy
        exact List.inj_on_of_nodup_map hW hx hy
          (by rw [← Option.some_inj, ← hpx, ← hpy])) with
    hnil | ⟨a, _, _, hfa⟩
  · rw [hnil, find?_of_filter_nil _ _ hnil]
    rfl
  · rw [hfa, find?_of_filter_single _ _ _ hfa]
    rfl

theorem q8Rows_eq (db : Db) (hW : (db.workshops.map Workshop.id).Nodup) :
    q8Rows db = db.equipment.flatMap fun e =>
      (leftJoin (logsOf db e)).map fun ol? =>
        (e.id, e.name,
          (db.workshops.find? fun w => e.workshop_id = some w.id).map
            Workshop.name, ol?) := by
  unfold q8Rows
  refine List.flatMap_congr fun e _ => ?_
  rw [wJoin_singleton db hW e.workshop_id, List.flatMap_singleton]
  rfl

/-- C5 (corrected): each equipment unit yields exactly one Q8 row whose
`active_ops` counts its `IN_PROGRESS` logs, but whose `total_logs` is the
`LEFT JOIN` row count — the number of logs when there are any, and `1`
(counting the all-`NULL` row), not `0`, for equipment with no logs; rows are
sorted by `active_ops` descending, ties by equipment name. -/
theorem q8_utilization_characterization (db : Db)
    (hE : (db.equipment.map Equipment.id).Nodup)
    (hW : (db.workshops.map Workshop.id).Nodup) :
    (∀ e ∈ db.equipment, ∃ r ∈ q8 db, r.id = e.id ∧ r.equipment = e.name ∧
        r.active_ops = (activeLogsOf db e).length ∧
        r.total_logs = if logsOf db e = [] then 1 else (logsOf db e).length) ∧
      ∀ (i j : ℕ) (hi : i < (q8 db).length) (hj : j < (q8 db).length),
        i < j →
        ((q8 db).get ⟨j, hj⟩).active_ops ≤ ((q8 db).get ⟨i, hi⟩).active_ops ∧
          (((q8 db).get ⟨i, hi⟩).active_ops = ((q8 db).get ⟨j, hj⟩).active_ops →
            strKey ((q8 db).get ⟨i, hi⟩).equipment ≤
              strKey ((q8 db).get ⟨j, hj⟩).equipment) := by
  constructor
  · intro e he
    have hndk : (db.equipment.map fun e' =>
        ((e'.id, e'.name,
          (db.workshops.find? fun w => e'.workshop_id = some w.id).map
            Workshop.name) : ℕ × String × Option String)).Nodup := by
      refine List.Nodup.of_map Prod.fst ?_
      rw [List.map_map]
      exact hE
    have hgroup : (q8Rows db).filter
        (fun r => q8GroupKey r =
          (e.id, e.name,
            (db.workshops.find? fun w => e.workshop_id = some w.id).map
              Workshop.name)) =
        (leftJoin (logsOf db e)).map fun ol? =>
          (e.id, e.name,
            (db.workshops.find? fun w => e.workshop_id = some w.id).map
              Workshop.name, ol?) := by
      rw [q8Rows_eq db hW]
      exact filter_key_flatMap
        (fun e' => ((e'.id, e'.name,
          (db.workshops.find? fun w => e'.workshop_id = some w.id).map
            Workshop.name) : ℕ × String × Option String))
        q8GroupKey
        (fun e' => (leftJoin (logsOf db e')).map fun ol? =>
          (e'.id, e'.name,
            (db.workshops.find? fun w => e'.workshop_id = some w.id).map
              Workshop.name, ol?))
        db.equipment hndk
        (fun x _ b hb => by
          rcases List.mem_map.mp hb with ⟨ol?, _, rfl⟩
          rfl)
        e he
    obtain ⟨ol0, hol0⟩ := List.exists_mem_of_ne_nil _ (leftJoin_ne_nil (logsOf db e))
    have hkmem : ((e.id, e.name,
        (db.workshops.find? fun w => e.workshop_id = some w.id).map
          Workshop.name) : ℕ × String × Option String) ∈
        ((q8Rows db).map q8GroupKey).dedup := by
      rw [List.mem_dedup, List.mem_map]
      have hmem0 : ((e.id, e.name,
          (db.workshops.find? fun w => e.workshop_id = some w.id).map
            Workshop.name, ol0) :
          ℕ × String × Option String × Option OperationLog) ∈ q8Rows db := by
        rw [q8Rows_eq db hW]
        exact List.mem_flatMap.mpr ⟨e, he, List.mem_map.mpr ⟨ol0, hol0, rfl⟩⟩
      exact ⟨_, hmem0, rfl⟩
    refine ⟨⟨e.id, e.name,
        (db.workshops.find? fun w => e.workshop_id = some w.id).map
          Workshop.name,
        (activeLogsOf db e).length,
        if logsOf db e = [] then 1 else (logsOf db e).length⟩,
      ?_, rfl, rfl, rfl, rfl⟩
    rw [q8, List.mem_insertionSort, List.mem_map]
    refine ⟨_, hkmem, ?_⟩
    simp only
    rw [hgroup]
    congr 1
    · unfold activeLogsOf
      rw [List.filter_map, List.length_map]
      have := leftJoin_filter_any (logsOf db e)
        (fun ol => decide (ol.status = "IN_PROGRESS"))
      rw [← this]
      congr 1
    · rw [List.length_map, leftJoin_length]
  · intro i j hi hj hij
    have hsorted : List.Sorted (keyLe q8Key) (q8 db) := by
      rw [q8]
      exact List.sorted_insertionSort _ _
    have hkey : keyLe q8Key ((q8 db).get ⟨i, hi⟩) ((q8 db).get ⟨j, hj⟩) :=
      hsorted.rel_get_of_lt
        (show (⟨i, hi⟩ : Fin (q8 db).length) < ⟨j, hj⟩ from hij)
    unfold keyLe at hkey
    simp only [q8Key] at hkey
    rcases (Prod.Lex.le_iff _ _).mp hkey with hlt | ⟨h1, h2⟩
    · simp only at hlt
      constructor
      · omega
      · intro heq
        rw [heq] at hlt
        exact absurd hlt (lt_irrefl _)
    · simp only at h1 h2
      constructor
      · omega
      · intro _
        exact h2

/-- Counterexample to C5: equipment 2 of `exDbA` has no operation logs, yet
Q8 reports `total_logs = 1` for it — the `LEFT JOIN`'s `NULL` row is counted
by `COUNT(*)` — where the claim requires `0`. -/
theorem q8_total_logs_one_for_no_logs :
    ((⟨2, "lathe", none⟩ : Equipment) ∈ exDbA.equipment) ∧
      logsOf exDbA ⟨2, "lathe", none⟩ = [] ∧
      (∃ r ∈ q8 exDbA, r.id = 2 ∧ r.active_ops = 0 ∧ r.total_logs = 1) ∧
      ∀ r ∈ q8 exDbA, r.id = 2 → r.total_logs ≠ 0 := by
  decide

/-- Witness for C5's corrected statement on `exDbA`. -/
theorem q8_utilization_characterization_witness :
    ((exDbA.equipment.map Equipment.id).Nodup ∧
        (exDbA.workshops.map Workshop.id).Nodup) ∧
      ((∀ e ∈ exDbA.equipment, ∃ r ∈ q8 exDbA, r.id = e.id ∧
          r.equipment = e.name ∧
          r.active_ops = (activeLogsOf exDbA e).length ∧
          r.total_logs =
            if logsOf exDbA e = [] then 1 else (logsOf exDbA e).length) ∧
        ∀ (i j : ℕ) (hi : i < (q8 exDbA).length) (hj : j < (q8 exDbA).length),
          i < j →
          ((q8 exDbA).get ⟨j, hj⟩).active_ops ≤
              ((q8 exDbA).get ⟨i, hi⟩).active_ops ∧
            (((q8 exDbA).get ⟨i, hi⟩).active_ops =
                ((q8 exDbA).get ⟨j, hj⟩).active_ops →
              strKey ((q8 exDbA).get ⟨i, hi⟩).equipment ≤
                strKey ((q8 exDbA).get ⟨j, hj⟩).equipment)) :=
  ⟨⟨by decide, by decide⟩,
    q8_utilization_characterization exDbA (by decide) (by decide)⟩

/-! ### C2 — work-in-progress valuation per order (Q15) -/

theorem ops_single (db : Db) (hOps : (db.operations.map Operation.id).Nodup)
    (rs : RouteStep) (hex : ∃ op ∈ db.operations, op.id = rs.operation_id) :
    ∃ op0, db.operations.filter (fun op => op.id = rs.operation_id) = [op0] ∧
      stepMinutes db rs = coalesceMinutes rs op0 := by
  rcases hex with ⟨op', hop', hid⟩
  rcases filter_nil_or_single (fun op => decide (op.id = rs.operation_id))
      db.operations (hOps.of_map _)
      (fun x hx y hy hpx hpy => by
        simp only [decide_eq_true_eq] at hpx hpy
        exact List.inj_on_of_nodup_map hOps hx hy (by rw [hpx, hpy])) with
    hnil | ⟨a, _, _, hfa⟩
  · exfalso
    have hmem : op' ∈ db.operations.filter (fun op => op.id = rs.operation_id) :=
      List.mem_filter.mpr ⟨hop', by simpa using hid⟩
    rw [hnil] at hmem
    cases hmem
  · refine ⟨a, hfa, ?_⟩
    unfold stepMinutes coalesceMinutes
    rw [find?_of_filter_single _ _ _ hfa]
    cases rs.planned_minutes <;> rfl

theorem q15Joined_eq (db : Db)
    (hOps : (db.operations.map Operation.id).Nodup)
    (hOpT : ∀ rs ∈ db.route_steps, ∃ op ∈ db.operations,
      op.id = rs.operation_id) :
    q15Joined db = (db.orders.filter fun o =>
        o.status = OrderStatus.planned ∨
          o.status = OrderStatus.inProgress).flatMap fun o =>
      (orderSteps db o).map fun rs => (o.id, rs.status, stepMinutes db rs) := by
  unfold q15Joined orderSteps
  refine List.flatMap_congr fun o _ => ?_
  rw [List.map_flatMap]
  refine List.flatMap_congr fun oi _ => ?_
  conv_rhs => rw [← flatMap_singleton_eq_map]
  refine List.flatMap_congr fun rs hrs => ?_
  obtain ⟨op0, hfa, hsm⟩ :=
    ops_single db hOps rs (hOpT rs (List.mem_filter.mp hrs).1)
  rw [hfa, hsm]
  rfl

theorem q15_group (db : Db) (hOrd : (db.orders.map Order.id).Nodup)
    (hOps : (db.operations.map Operation.id).Nodup)
    (hOpT : ∀ rs ∈ db.route_steps, ∃ op ∈ db.operations,
      op.id = rs.operation_id)
    (o : Order) (ho : o ∈ db.orders.filter fun o =>
      o.status = OrderStatus.planned ∨ o.status = OrderStatus.inProgress) :
    (q15Joined db).filter (fun r => r.1 = o.id) =
      (orderSteps db o).map fun rs => (o.id, rs.status, stepMinutes db rs) := by
  rw [q15Joined_eq db hOps hOpT]
  refine filter_key_flatMap Order.id (fun r => r.1)
    (fun o' => (orderSteps db o').map fun rs =>
      (o'.id, rs.status, stepMinutes db rs)) _ ?_ ?_ o ho
  · exact hOrd.sublist ((List.filter_sublist db.orders).map Order.id)
  · intro x _ b hb
    rcases List.mem_map.mp hb with ⟨rs, _, rfl⟩
    rfl

/-- C2 (corrected): for a `PLANNED`/`IN_PROGRESS` order with at least one
non-`DONE` step, Q15 reports exactly the claimed sum and the exact valuation
`(remaining / 60) × 1500`.  But when all of the order's steps are `DONE`,
`SUM ... FILTER` is SQL `NULL`, so the reported remaining minutes and
valuation are `NULL` — not the zero the claim states; an order with no route
steps produces no row at all. -/
theorem q15_remaining_minutes_characterization (db : Db) (hwf : db.WF) :
    ∀ o ∈ db.orders,
      (o.status = OrderStatus.planned ∨ o.status = OrderStatus.inProgress) →
      ((∃ rs ∈ orderSteps db o, rs.status ≠ StepStatus.done) →
        ∃ r ∈ q15 db, r.order_id = o.id ∧
          r.remaining_minutes = some (claimRemainingMinutes db o) ∧
          r.nzp_cost_rub = some (25 * claimRemainingMinutes db o) ∧
          ((25 * claimRemainingMinutes db o : ℤ) : ℚ) =
            (claimRemainingMinutes db o : ℚ) / 60 * 1500) ∧
      ((orderSteps db o ≠ [] ∧
          ∀ rs ∈ orderSteps db o, rs.status = StepStatus.done) →
        ∃ r ∈ q15 db, r.order_id = o.id ∧ r.remaining_minutes = none ∧
          r.nzp_cost_rub = none) ∧
      (orderSteps db o = [] → ∀ r ∈ q15 db, r.order_id ≠ o.id) := by
  obtain ⟨hOrd, hItems, hProds, hOps, hW, hE, hOpT⟩ := hwf
  intro o ho hst
  have hoF : o ∈ db.orders.filter (fun o =>
      o.status = OrderStatus.planned ∨ o.status = OrderStatus.inProgress) :=
    List.mem_filter.mpr ⟨ho, by simpa using hst⟩
  have hgrp := q15_group db hOrd hOps hOpT o hoF
  have hfilter : ((q15Joined db).filter (fun r => r.1 = o.id)).filter
      (fun r => r.2.1 ≠ StepStatus.done) =
      ((orderSteps db o).filter fun rs => rs.status ≠ StepStatus.done).map
        fun rs => (o.id, rs.status, stepMinutes db rs) := by
    rw [hgrp, List.filter_map]
    exact congrArg _ (List.filter_congr fun a _ => rfl)
  have hkey : ∀ rs ∈ orderSteps db o,
      o.id ∈ ((q15Joined db).map fun r => r.1).dedup := by
    intro rs hrs
    rw [List.mem_dedup, List.mem_map]
    refine ⟨(o.id, rs.status, stepMinutes db rs), ?_, rfl⟩
    rw [q15Joined_eq db hOps hOpT]
    exact List.mem_flatMap.mpr ⟨o, hoF, List.mem_map.mpr ⟨rs, hrs, rfl⟩⟩
  have hmemR : ∀ rs ∈ orderSteps db o,
      ((o.id, sqlSumFilter ((q15Joined db).filter fun r => r.1 = o.id)
          (fun r => r.2.1 ≠ StepStatus.done) (fun r => r.2.2)) :
        ℕ × Option ℤ) ∈ q15Remaining db := by
    intro rs hrs
    unfold q15Remaining
    exact List.mem_map.mpr ⟨o.id, hkey rs hrs, rfl⟩
  refine ⟨?_, ?_, ?_⟩
  · rintro ⟨rs, hrs, hnd⟩
    have hne : ((q15Joined db).filter (fun r => r.1 = o.id)).filter
        (fun r => r.2.1 ≠ StepStatus.done) ≠ [] := by
      rw [hfilter]
      intro hc
      rcases List.map_eq_nil_iff.mp hc with hc'
      have : rs ∈ (orderSteps db o).filter
          fun rs => rs.status ≠ StepStatus.done :=
        List.mem_filter.mpr ⟨hrs, by simpa using hnd⟩
      rw [hc'] at this
      cases this
    have hsum : sqlSumFilter ((q15Joined db).filter fun r => r.1 = o.id)
        (fun r => r.2.1 ≠ StepStatus.done) (fun r => r.2.2) =
        some (claimRemainingMinutes db o) := by
      rw [sqlSumFilter_of_ne_nil _ hne, hfilter]
      unfold claimRemainingMinutes
      rw [List.map_map]
      rfl
    refine ⟨_, by
      rw [q15, List.mem_insertionSort]
      exact List.mem_map.mpr ⟨_, hmemR rs hrs, rfl⟩, rfl, ?_, ?_, ?_⟩
    · exact hsum
    · rw [hsum]
      simp [pgRoundDiv_rate]
    · push_cast
      ring
  · rintro ⟨hne, halldone⟩
    obtain ⟨rs0, hrs0⟩ := List.exists_mem_of_ne_nil _ hne
    have hnil : ((q15Joined db).filter (fun r => r.1 = o.id)).filter
        (fun r => r.2.1 ≠ StepStatus.done) = [] := by
      rw [hfilter]
      rw [List.filter_eq_nil_iff.mpr fun rs hrs => by
        simp [halldone rs hrs]]
      rfl
    have hsum : sqlSumFilter ((q15Joined db).filter fun r => r.1 = o.id)
        (fun r => r.2.1 ≠ StepStatus.done) (fun r => r.2.2) = none :=
      sqlSumFilter_of_nil _ hnil
    refine ⟨_, by
      rw [q15, List.mem_insertionSort]
      exact List.mem_map.mpr ⟨_, hmemR rs0 hrs0, rfl⟩, rfl, ?_, ?_⟩
    · exact hsum
    · rw [hsum]
      rfl
  · intro hempty r hr hid
    rw [q15, List.mem_insertionSort] at hr
    rcases List.mem_map.mp hr with ⟨km, hkm, rfl⟩
    unfold q15Remaining at hkm
    rcases List.mem_map.mp hkm with ⟨k, hk, rfl⟩
    rw [List.mem_dedup] at hk
    rcases List.mem_map.mp hk with ⟨jr, hjr, hjrk⟩
    rw [q15Joined_eq db hOps hOpT] at hjr
    rcases List.mem_flatMap.mp hjr with ⟨o', ho', hjr'⟩
    rcases List.mem_map.mp hjr' with ⟨rs', hrs', rfl⟩
    have hido : o' = o := by
      refine List.inj_on_of_nodup_map hOrd (List.mem_of_mem_filter ho') ho ?_
      rw [← hjrk] at hid
      exact hid
    rw [hido, hempty] at hrs'
    cases hrs'

/-- Counterexample to C2: order 3 of `exDbA` is `IN_PROGRESS` and all its
steps are `DONE`; Q15 reports `NULL` remaining minutes and `NULL` valuation
for it, not the zero valuation the claim asserts. -/
theorem q15_all_done_order_reports_null :
    ((⟨3, OrderStatus.inProgress⟩ : Order) ∈ exDbA.orders) ∧
      orderSteps exDbA ⟨3, OrderStatus.inProgress⟩ ≠ [] ∧
      (∀ rs ∈ orderSteps exDbA ⟨3, OrderStatus.inProgress⟩,
        rs.status = StepStatus.done) ∧
      (∃ r ∈ q15 exDbA, r.order_id = 3 ∧ r.remaining_minutes = none ∧
        r.nzp_cost_rub = none) ∧
      ∀ r ∈ q15 exDbA, r.order_id = 3 → r.nzp_cost_rub ≠ some 0 := by
  decide

/-- Witness for C2's corrected statement on `exDbA`. -/
theorem q15_remaining_minutes_characterization_witness :
    exDbA.WF ∧
      ∀ o ∈ exDbA.orders,
        (o.status = OrderStatus.planned ∨ o.status = OrderStatus.inProgress) →
        ((∃ rs ∈ orderSteps exDbA o, rs.status ≠ StepStatus.done) →
          ∃ r ∈ q15 exDbA, r.order_id = o.id ∧
            r.remaining_minutes = some (claimRemainingMinutes exDbA o) ∧
            r.nzp_cost_rub = some (25 * claimRemainingMinutes exDbA o) ∧
            ((25 * claimRemainingMinutes exDbA o : ℤ) : ℚ) =
              (claimRemainingMinutes exDbA o : ℚ) / 60 * 1500) ∧
        ((orderSteps exDbA o ≠ [] ∧
            ∀ rs ∈ orderSteps exDbA o, rs.status = StepStatus.done) →
          ∃ r ∈ q15 exDbA, r.order_id = o.id ∧ r.remaining_minutes = none ∧
            r.nzp_cost_rub = none) ∧
        (orderSteps exDbA o = [] → ∀ r ∈ q15 exDbA, r.order_id ≠ o.id) :=
  ⟨by decide, q15_remaining_minutes_characterization exDbA (by decide)⟩

/-! ### C4 — work-in-progress per workshop (Q16) -/

theorem bucketOf_eq_find (db : Db) (rs : RouteStep) :
    bucketOf db rs =
      (db.workshops.find? fun w => rs.workshop_id = some w.id).map
        Workshop.name := by
  unfold bucketOf
  cases hw : rs.workshop_id with
  | none =>
    rw [List.find?_eq_none.mpr fun x _ => by simp [hw]]
    rfl
  | some wid =>
    exact congrArg (Option.map Workshop.name)
      (find?_congr (fun w => by
        rw [decide_eq_decide]
        exact ⟨fun h => congrArg some h.symm,
          fun h => (Option.some_inj.mp h).symm⟩) db.workshops)

theorem q16Joined_eq (db : Db)
    (hOps : (db.operations.map Operation.id).Nodup)
    (hOpT : ∀ rs ∈ db.route_steps, ∃ op ∈ db.operations,
      op.id = rs.operation_id)
    (hW : (db.workshops.map Workshop.id).Nodup) :
    q16Joined db = db.route_steps.map fun rs =>
      (bucketOf db rs, rs.status, stepMinutes db rs) := by
  unfold q16Joined
  conv_rhs => rw [← flatMap_singleton_eq_map]
  refine List.flatMap_congr fun rs hrs => ?_
  obtain ⟨op0, hfa, hsm⟩ := ops_single db hOps rs (hOpT rs hrs)
  rw [hfa, List.flatMap_singleton, wJoin_singleton db hW rs.workshop_id,
    hsm, bucketOf_eq_find db rs]
  rfl

theorem q16_group (db : Db)
    (hOps : (db.operations.map Operation.id).Nodup)
    (hOpT : ∀ rs ∈ db.route_steps, ∃ op ∈ db.operations,
      op.id = rs.operation_id)
    (hW : (db.workshops.map Workshop.id).Nodup) (k : Option String) :
    (q16Joined db).filter (fun r => r.1 = k) =
      (db.route_steps.filter fun rs => bucketOf db rs = k).map fun rs =>
        (bucketOf db rs, rs.status, stepMinutes db rs) := by
  rw [q16Joined_eq db hOps hOpT hW, List.filter_map]
  exact congrArg _ (List.filter_congr fun a _ => rfl)

/-- C4 (corrected): Q16's `FROM` clause never joins `orders`, so its
aggregation is NOT Q15's restricted to `PLANNED`/`IN_PROGRESS` orders: every
bucket value it reports is the coalesced-minutes sum over the non-`DONE`
steps of that workshop bucket across ALL route steps regardless of the
owning order's status, and only buckets with a strictly positive sum are
reported.  Steps without a resolvable workshop do land in the `NULL`
("unassigned") bucket, which the second conjunct covers with
`b = none`. -/
theorem q16_bucket_characterization (db : Db) (hwf : db.WF) :
    (∀ r ∈ q16 db, r.wip_minutes = some (specWipBucket db r.workshop) ∧
        0 < specWipBucket db r.workshop ∧
        r.wip_cost_rub = some (25 * specWipBucket db r.workshop)) ∧
      ∀ b : Option String, 0 < specWipBucket db b →
        ∃ r ∈ q16 db, r.workshop = b ∧
          r.wip_minutes = some (specWipBucket db b) := by
  obtain ⟨hOrd, hItems, hProds, hOps, hW, hE, hOpT⟩ := hwf
  have hsub : ∀ k : Option String,
      ((q16Joined db).filter (fun r => r.1 = k)).filter
        (fun r => r.2.1 ≠ StepStatus.done) =
      (db.route_steps.filter fun rs =>
          rs.status ≠ StepStatus.done ∧ bucketOf db rs = k).map
        fun rs => (bucketOf db rs, rs.status, stepMinutes db rs) := by
    intro k
    rw [q16_group db hOps hOpT hW k, List.filter_map, List.filter_filter]
    exact congrArg _ (List.filter_congr fun a _ => by simp)
  have hspecsum : ∀ k : Option String,
      (((db.route_steps.filter fun rs =>
          rs.status ≠ StepStatus.done ∧ bucketOf db rs = k).map
        fun rs => (bucketOf db rs, rs.status, stepMinutes db rs)).map
          fun r => r.2.2).sum = specWipBucket db k := by
    intro k
    unfold specWipBucket
    rw [List.map_map]
    rfl
  constructor
  · intro r hr
    rw [q16, List.mem_insertionSort] at hr
    rcases List.mem_map.mp hr with ⟨km, hkm, rfl⟩
    rcases List.mem_filter.mp hkm with ⟨hkm', hpos⟩
    unfold q16Wip at hkm'
    rcases List.mem_map.mp hkm' with ⟨k, _, rfl⟩
    by_cases hbase : (db.route_steps.filter fun rs =>
        rs.status ≠ StepStatus.done ∧ bucketOf db rs = k) = []
    · exfalso
      have hnil : ((q16Joined db).filter (fun r => r.1 = k)).filter
          (fun r => r.2.1 ≠ StepStatus.done) = [] := by
        rw [hsub k, hbase]
        rfl
      rw [sqlSumFilter_of_nil _ hnil] at hpos
      simp at hpos
    · have hne : ((q16Joined db).filter (fun r => r.1 = k)).filter
          (fun r => r.2.1 ≠ StepStatus.done) ≠ [] := by
        rw [hsub k]
        simpa using hbase
      have hsum : sqlSumFilter ((q16Joined db).filter fun r => r.1 = k)
          (fun r => r.2.1 ≠ StepStatus.done) (fun r => r.2.2) =
          some (specWipBucket db k) := by
        rw [sqlSumFilter_of_ne_nil _ hne, hsub k, hspecsum k]
      rw [hsum] at hpos ⊢
      refine ⟨rfl, by simpa using hpos, ?_⟩
      simp [pgRoundDiv_rate]
  · intro b hb
    have hbase : (db.route_steps.filter fun rs =>
        rs.status ≠ StepStatus.done ∧ bucketOf db rs = b) ≠ [] := by
      intro hc
      unfold specWipBucket at hb
      rw [hc] at hb
      simp at hb
    obtain ⟨rs0, hrs0⟩ := List.exists_mem_of_ne_nil _ hbase
    rcases List.mem_filter.mp hrs0 with ⟨hrs0', hcond⟩
    simp only [decide_eq_true_eq] at hcond
    have hkdedup : b ∈ ((q16Joined db).map fun r => r.1).dedup := by
      rw [List.mem_dedup, List.mem_map]
      refine ⟨(bucketOf db rs0, rs0.status, stepMinutes db rs0), ?_, hcond.2⟩
      rw [q16Joined_eq db hOps hOpT hW]
      exact List.mem_map.mpr ⟨rs0, hrs0', rfl⟩
    have hne : ((q16Joined db).filter (fun r => r.1 = b)).filter
        (fun r => r.2.1 ≠ StepStatus.done) ≠ [] := by
      rw [hsub b]
      simpa using hbase
    have hsum : sqlSumFilter ((q16Joined db).filter fun r => r.1 = b)
        (fun r => r.2.1 ≠ StepStatus.done) (fun r => r.2.2) =
        some (specWipBucket db b) := by
      rw [sqlSumFilter_of_ne_nil _ hne, hsub b, hspecsum b]
    have hkm : ((b, sqlSumFilter ((q16Joined db).filter fun r => r.1 = b)
        (fun r => r.2.1 ≠ StepStatus.done) (fun r => r.2.2)) :
          Option String × Option ℤ) ∈ q16Wip db := by
      unfold q16Wip
      exact List.mem_map.mpr ⟨b, hkdedup, rfl⟩
    refine ⟨_, by
      rw [q16, List.mem_insertionSort]
      refine List.mem_map.mpr ⟨_, List.mem_filter.mpr ⟨hkm, ?_⟩, rfl⟩
      rw [hsum]
      simpa using hb, rfl, ?_⟩
    exact hsum

/-- Counterexample to C4: in `exDbA` order 2 is `DONE`, yet its `PLANNED`
45-minute step in workshop `W` is counted by Q16 (bucket `W` reports 105
minutes), while the claimed aggregation — restricted to orders that are
`PLANNED`/`IN_PROGRESS` — yields 60 for that bucket. -/
theorem q16_ignores_order_status :
    ((⟨2, OrderStatus.done⟩ : Order) ∈ exDbA.orders) ∧
      claimWipBucket exDbA (some "W") = 60 ∧
      (∃ r ∈ q16 exDbA, r.workshop = some "W" ∧ r.wip_minutes = some 105) ∧
      ∀ r ∈ q16 exDbA, r.workshop = some "W" →
        r.wip_minutes ≠ some (claimWipBucket exDbA (some "W")) := by
  decide

/-- Witness for C4's corrected statement on `exDbA`. -/
theorem q16_bucket_characterization_witness :
    exDbA.WF ∧
      ((∀ r ∈ q16 exDbA,
          r.wip_minutes = some (specWipBucket exDbA r.workshop) ∧
          0 < specWipBucket exDbA r.workshop ∧
          r.wip_cost_rub = some (25 * specWipBucket exDbA r.workshop)) ∧
        ∀ b : Option String, 0 < specWipBucket exDbA b →
          ∃ r ∈ q16 exDbA, r.workshop = b ∧
            r.wip_minutes = some (specWipBucket exDbA b)) :=
  ⟨by decide, q16_bucket_characterization exDbA (by decide)⟩

end PE
